import Mathlib

/-!
# Verification of the realestate-scraper normalization engine

A shallow embedding, in Lean 4, of the normalization core of the
`realestate-scraper` repository:

* `src/rscraper/amenities.py` — amenity-vocabulary sanitation, the reverse
  synonym index, and `normalize_amenities`;
* `src/rscraper/normalize.py` — the recursive key search over JSON-like
  trees, the per-field extractors, and `to_listing_row`.

Conventions of the embedding:

* Python strings are Lean `String`s; the character-class predicates `\w`,
  `\s`, `str.lower`, `str.strip` are modelled on the ASCII fragment (the
  fragment exercised by the repository's data and tests).
* JSON-like Python values (`dict` / `list` / `str` / numeric / bool /
  `None`) are the mutually inductive type `Json` / `JsonList` / `JsonKVs`;
  association lists keep Python's dict insertion order.
* Python numbers (`int` and `float`) are modelled twice.  The primary
  model is exact `ℚ`: every numeric computation appearing in the verified
  claims (`21780 / 43560`, `0.5 * 43560`, `int(...)` truncation) is exact
  in IEEE double precision, so the rational model agrees with Python's
  floats on them.  A saturating refinement (`PyFloat`, `parse_intF`,
  `to_listing_rowF`) additionally models the IEEE double overflow bound:
  CPython's string-to-float conversion returns `inf` past
  `2^1024 - 2^970`, and `int(inf)` raises an uncaught `OverflowError`.
  The two models provably agree on finite values
  (`float_of_digitsF_finite`).
* `None` returned by fallible parsers is `Option.none`; inside JSON trees
  it is `Json.null`.  The recursive `_search` of the source conflates the
  two (it signals "not found" with `None`), and the embedding mirrors that
  conflation faithfully.
* The raising primitives are `Except`-typed: `float_of_str` /
  `float_of_strF` carry the `ValueError` of Python `float(...)` (the
  `try/except ValueError` of `parse_float` is the visible `match` on it),
  and `pyIntOfFloat` carries the `OverflowError` of `int(...)` on an
  infinite float, which the source does not catch.
-/

namespace RScraper

/-- Python's `\s` character class on the ASCII fragment:
space, tab, newline, carriage return, vertical tab, form feed. -/
def isSpaceChar (c : Char) : Bool :=
  c == ' ' || c == '\t' || c == '\n' || c == '\r' || c == '\x0b' || c == '\x0c'

/-- Python's `\w` character class on the ASCII fragment:
alphanumeric or underscore.  (Note: underscore IS a word character.) -/
def isWordChar (c : Char) : Bool :=
  c.isAlphanum || c == '_'

/-- Python `str.lower()` on the ASCII fragment. -/
def pyLower (s : String) : String :=
  ⟨s.data.map Char.toLower⟩

/-- Python `str.strip()` on the ASCII fragment: drop whitespace from both ends. -/
def pyStripL (l : List Char) : List Char :=
  ((l.dropWhile isSpaceChar).reverse.dropWhile isSpaceChar).reverse

/-- Python `str.strip()` on `String`. -/
def pyStrip (s : String) : String :=
  ⟨pyStripL s.data⟩

/-- Right-strip only: drop trailing whitespace. -/
def rstripL (l : List Char) : List Char :=
  (l.reverse.dropWhile isSpaceChar).reverse

/-- The character replacement performed by `re.sub(r"[^\w\s]", " ", ·)`:
every character that is neither a word character nor whitespace becomes a
space; word characters (including `_`) and whitespace are kept. -/
def replPunct (c : Char) : Char :=
  if isWordChar c || isSpaceChar c then c else ' '

/-- `re.sub(r"\s+", " ", ·)`: every maximal run of whitespace characters is
replaced by a single space. -/
def collapseWS : List Char → List Char
  | [] => []
  | [c] => if isSpaceChar c then [' '] else [c]
  | c :: d :: t =>
    if isSpaceChar c && isSpaceChar d then collapseWS (d :: t)
    else (if isSpaceChar c then ' ' else c) :: collapseWS (d :: t)

/-- `_sanitize` from `src/rscraper/amenities.py`:
`text = re.sub(r"[^\w\s]", " ", text.lower())` followed by
`re.sub(r"\s+", " ", text).strip()`. -/
def sanitize (s : String) : String :=
  ⟨pyStripL (collapseWS ((s.data.map Char.toLower).map replPunct))⟩

/-- The sanitizer as claim C6 words it: the replacement step also replaces
underscores (treats them like punctuation).  Used only to exhibit the
divergence from the source's `_sanitize`, whose `[^\w\s]` class keeps `_`. -/
def sanitizeClaimed (s : String) : String :=
  ⟨pyStripL (collapseWS ((s.data.map Char.toLower).map
      (fun c => if c.isAlphanum || isSpaceChar c then c else ' ')))⟩

/-- The maximal whitespace-free words of a character list, in order;
an independent rendering of "collapse runs of whitespace and trim ends". -/
def wordsOf : List Char → List (List Char)
  | [] => []
  | c :: t =>
    if isSpaceChar c then wordsOf t
    else (c :: t.takeWhile (fun x => !isSpaceChar x)) ::
      wordsOf (t.dropWhile (fun x => !isSpaceChar x))
termination_by l => l.length
decreasing_by
  all_goals
    simp only [List.length_cons]
    first
      | omega
      | (have h2 : (t.dropWhile (fun c => !isSpaceChar c)).length ≤ t.length :=
           (List.dropWhile_sublist _).length_le
         omega)

/-- Join words with single spaces. -/
def joinWords : List (List Char) → List Char
  | [] => []
  | [w] => w
  | w :: ws => w ++ ' ' :: joinWords ws

/-- Amended C6 sanitizer, following the amended claim's words with an
independent computational rendering of "collapse whitespace runs to one
space and trim both ends" (join the whitespace-separated words with single
spaces). -/
def sanitizeAmended (s : String) : String :=
  ⟨joinWords (wordsOf ((s.data.map Char.toLower).map replPunct))⟩

/-- Python dict assignment `m[k] = v` on an insertion-ordered association
list: an existing binding is updated in place, a new key is appended. -/
def dinsert (m : List (String × String)) (k v : String) : List (String × String) :=
  if m.any (fun p => p.1 == k) then
    m.map (fun p => if p.1 == k then (p.1, v) else p)
  else m ++ [(k, v)]

/-- Python `k in m` plus `m[k]` on an association list. -/
def dlookup (m : List (String × String)) (k : String) : Option String :=
  (m.find? (fun p => p.1 == k)).map (·.2)

/-- The synonym loop of `_reverse_vocab`: store
`sanitize(syn) -> canonical` for each synonym. -/
def revInsertSyns (canonical : String) (rev : List (String × String))
    (syns : List String) : List (String × String) :=
  syns.foldl (fun rev syn => dinsert rev (sanitize syn) canonical) rev

/-- One vocabulary entry of `_reverse_vocab`: with
`canonical = canon.strip()`, store `sanitize(canonical) -> canonical`,
then every synonym. -/
def revInsertEntry (rev : List (String × String)) (p : String × List String) :
    List (String × String) :=
  revInsertSyns (pyStrip p.1) (dinsert rev (sanitize (pyStrip p.1)) (pyStrip p.1)) p.2

/-- `_reverse_vocab` from `src/rscraper/amenities.py`: for every vocabulary
entry `(canon, syns)`, store `sanitize(canon.strip()) -> canon.strip()` and
`sanitize(syn) -> canon.strip()` for each synonym. -/
def reverse_vocab (vocab : List (String × List String)) : List (String × String) :=
  vocab.foldl revInsertEntry []

/-- Is position `p` of `t` occupied by a word character?
(Out-of-range positions count as non-word, as in `re`.) -/
def wordAt (t : List Char) (p : ℕ) : Bool :=
  isWordChar (t.getD p ' ')

/-- The `\b` word-boundary assertion of Python `re` at position `p`:
exactly one of (character before `p`, character at `p`) is a word character. -/
def boundaryAt (t : List Char) (p : ℕ) : Bool :=
  (match p with
   | 0 => false
   | q + 1 => wordAt t q) != wordAt t p

/-- `re.search(rf"\b{re.escape(syn)}\b", text) is not None` for a literal
(escaped) pattern `syn`: some position carries a word boundary, the literal
pattern, and a word boundary after it. -/
def wordSearch (syn text : List Char) : Bool :=
  (List.range (text.length + 1)).any fun p =>
    syn.isPrefixOf (text.drop p) && boundaryAt text p &&
      boundaryAt text (p + syn.length)

/-- `normalize_amenities` from `src/rscraper/amenities.py`.  Tokens are
sanitized and looked up in the reverse index; if a non-empty description is
given, it is sanitized once and every reverse-index entry is searched in it
as a word-boundary pattern.  The set of matched canonicals is returned
sorted. -/
def tokenScan (rev : List (String × String)) (found : List String)
    (tokens : List String) : List String :=
  tokens.foldl
    (fun found token =>
      match dlookup rev (sanitize token) with
      | some canon => found.insert canon
      | none => found)
    found

def descScan (text : String) (found : List String)
    (rev : List (String × String)) : List String :=
  rev.foldl
    (fun found p =>
      if wordSearch p.1.data text.data then found.insert p.2 else found)
    found

def normalize_amenities (raw_tokens : List String)
    (vocab : List (String × List String)) (description : Option String := none) :
    List String :=
  let reverse := reverse_vocab vocab
  let found := tokenScan reverse [] raw_tokens
  let found : List String :=
    match description with
    | some d => if d ≠ "" then descScan (sanitize d) found reverse else found
    | none => found
  found.mergeSort (fun a b => decide (a ≤ b))

/-! ## JSON-like values and the recursive key search (`normalize.py`) -/

mutual
/-- A JSON-like Python value: `None`, `bool`, number (modelled as `ℚ`),
`str`, `list`, or insertion-ordered `dict` with string keys. -/
inductive Json where
  | null
  | bool (b : Bool)
  | num (q : ℚ)
  | str (s : String)
  | arr (xs : JsonList)
  | obj (kvs : JsonKVs)
  deriving DecidableEq
inductive JsonList where
  | nil
  | cons (hd : Json) (tl : JsonList)
  deriving DecidableEq
inductive JsonKVs where
  | nil
  | cons (key : String) (val : Json) (tl : JsonKVs)
  deriving DecidableEq
end

/-- List append on JSON object entries (used to speak about an entry's
earlier siblings). -/
def kvsAppend : JsonKVs → JsonKVs → JsonKVs
  | .nil, ys => ys
  | .cons k v t, ys => .cons k v (kvsAppend t ys)

mutual
/-- `_search` from `src/rscraper/normalize.py`: depth-first search for a key
satisfying `p`.  In a mapping, each key is tested and, on a hit, its value is
returned at once (even when that value is `None`); otherwise the search
descends into the value, and a non-`None` result aborts the whole search.
`None` doubles as "no match", exactly as in the source. -/
def search (p : String → Bool) : Json → Json
  | .obj kvs => searchKVs p kvs
  | .arr xs => searchArr p xs
  | _ => .null
def searchKVs (p : String → Bool) : JsonKVs → Json
  | .nil => .null
  | .cons k v rest =>
    if p k then v
    else
      match search p v with
      | .null => searchKVs p rest
      | r => r
def searchArr (p : String → Bool) : JsonList → Json
  | .nil => .null
  | .cons v rest =>
    match search p v with
    | .null => searchArr p rest
    | r => r
end

/-- `k.replace("_", "").replace("-", "")`. -/
def stripUH (s : String) : String :=
  ⟨s.data.filter (fun c => c != '_' && c != '-')⟩

/-- `k.replace("_", "")` (underscore removal only, as in `parse_sqft`,
`parse_property_type` and `parse_description`). -/
def stripU (s : String) : String :=
  ⟨s.data.filter (fun c => c != '_')⟩

/-- The key predicate of `_search_keys`: the candidate set is only
lower-cased (`{k.lower() for k in keys}`); the encountered key is stripped
of `_`/`-` and lower-cased before the membership test. -/
def keysPred (keys : List String) (k : String) : Bool :=
  (keys.map pyLower).contains (pyLower (stripUH k))

/-- `_search_keys` from `src/rscraper/normalize.py`. -/
def search_keys (d : Json) (keys : List String) : Json :=
  search (keysPred keys) d

/-- Is this value `None`? -/
def isNull : Json → Bool
  | .null => true
  | _ => false

mutual
/-- Does some key anywhere in the tree satisfy `p`?  (Specification-side
notion used to state "the candidate contains no such field anywhere".) -/
def hasKeyP (p : String → Bool) : Json → Bool
  | .obj kvs => hasKeyKVs p kvs
  | .arr xs => hasKeyList p xs
  | _ => false
def hasKeyKVs (p : String → Bool) : JsonKVs → Bool
  | .nil => false
  | .cons k v rest => p k || hasKeyP p v || hasKeyKVs p rest
def hasKeyList (p : String → Bool) : JsonList → Bool
  | .nil => false
  | .cons v rest => hasKeyP p v || hasKeyList p rest
end

/-- "No hit at or below these entries": no direct key satisfies `p` and
searching each value behaves as a miss (returns `None`). -/
def noHitKVs (p : String → Bool) : JsonKVs → Bool
  | .nil => true
  | .cons k v rest => !p k && isNull (search p v) && noHitKVs p rest

/-- Python truthiness of a JSON-shaped value. -/
def pyTruthy : Json → Bool
  | .null => false
  | .bool b => b
  | .num q => q != 0
  | .str s => s != ""
  | .arr .nil => false
  | .arr _ => true
  | .obj .nil => false
  | .obj _ => true

/-- Python `x or y` on JSON-shaped values. -/
def pyOr (a b : Json) : Json :=
  if pyTruthy a then a else b

mutual
/-- Python `repr(...)` of a JSON-shaped value (string quoting without escape
edge-cases; a number renders as its exact rational — the claims never
depend on numeric formatting, only on `pyStr v = "" ↔ v = .str ""`). -/
def pyRepr : Json → String
  | .null => "None"
  | .bool b => if b then "True" else "False"
  | .num q =>
    if q.den == 1 then toString q.num else toString q.num ++ "/" ++ toString q.den
  | .str s => "\x27" ++ s ++ "\x27"
  | .arr xs => "[" ++ pyReprList xs ++ "]"
  | .obj kvs => "\x7b" ++ pyReprKVs kvs ++ "\x7d"
def pyReprList : JsonList → String
  | .nil => ""
  | .cons v .nil => pyRepr v
  | .cons v rest => pyRepr v ++ ", " ++ pyReprList rest
def pyReprKVs : JsonKVs → String
  | .nil => ""
  | .cons k v .nil => "\x27" ++ k ++ "\x27: " ++ pyRepr v
  | .cons k v rest => "\x27" ++ k ++ "\x27: " ++ pyRepr v ++ ", " ++ pyReprKVs rest
end

/-- Python `str(...)` of a JSON-shaped value. -/
def pyStr : Json → String
  | .str s => s
  | v => pyRepr v

/-! ## Numeric parsing (`parse_float` / `parse_int`) -/

/-- Decimal value of a digit string. -/
def digitsToNat (l : List Char) : ℕ :=
  l.foldl (fun a c => a * 10 + (c.toNat - 48)) 0

/-- Python `float(...)` on a string over the alphabet `[0-9.]` (no sign):
digits with an optional dot and optional fraction digits, or a dot followed
by digits; anything else raises `ValueError` (`Except.error`). -/
def float_of_digits (l : List Char) : Except String ℚ :=
  let intPart := l.takeWhile (fun c => c != '.')
  let rest := l.dropWhile (fun c => c != '.')
  match rest with
  | [] =>
    if intPart ≠ [] ∧ intPart.all Char.isDigit then .ok (digitsToNat intPart)
    else .error "ValueError"
  | _ :: frac =>
    if (intPart ≠ [] ∨ frac ≠ []) ∧ intPart.all Char.isDigit ∧ frac.all Char.isDigit then
      .ok ((digitsToNat intPart : ℚ) + (digitsToNat frac : ℚ) / (10 : ℚ) ^ frac.length)
    else .error "ValueError"

/-- Python `float(...)` on a string over the alphabet `[0-9.\-]` (the
alphabet `parse_float`'s cleaning regex leaves): an optional single leading
minus, then an unsigned decimal literal. -/
def float_of_str (s : String) : Except String ℚ :=
  match s.data with
  | '-' :: rest => (float_of_digits rest).map (fun q => -q)
  | l => float_of_digits l

/-- The cleaning step of `parse_float` on strings:
`re.sub(r"[^0-9.\-]", "", val.replace(",", ""))`. -/
def cleanNumeric (s : String) : String :=
  ⟨s.data.filter (fun c => c.isDigit || c == '.' || c == '-')⟩

/-- `parse_float` from `src/rscraper/normalize.py`.  `None` is absent; a
`bool` is a Python `int` (`float(True) = 1.0`); numbers pass through;
strings are cleaned and parsed with `ValueError` caught to absent;
containers are absent. -/
def parse_float : Json → Option ℚ
  | .null => none
  | .bool b => some (if b then 1 else 0)
  | .num q => some q
  | .str s =>
    match float_of_str (cleanNumeric s) with
    | .ok q => some q
    | .error _ => none
  | .arr _ => none
  | .obj _ => none

/-- Python `int(...)` truncation toward zero of an exact rational. -/
def pyTrunc (q : ℚ) : ℤ :=
  q.num.tdiv q.den

/-- `parse_int`: `int(num)` of `parse_float` when present.  Total in the
exact-rational idealization; the saturating refinement `parse_intF` below
carries the `OverflowError` that `int(inf)` raises in the source. -/
def parse_int (v : Json) : Option ℤ :=
  (parse_float v).map pyTrunc

/-! ### Overflow-faithful refinement of the numeric model

`float_of_str`/`parse_float`/`parse_int` above idealize Python floats as
exact unbounded rationals; every finite value reaching the claims below is
exactly representable in double precision, so that idealization is
invisible there.  CPython's string-to-float conversion, however, saturates
to `inf` once the decimal value reaches the IEEE-754 double overflow bound
`2^1024 - 2^970` (`float("9" * 310)` is `inf` — a value, not an
exception), and `int(inf)` then raises an `OverflowError` that nothing in
`normalize.py` catches.  The definitions below refine the numeric model
with explicit infinities and that `int()` error path. -/

/-- Smallest magnitude at which decimal-to-double conversion rounds to
infinity: the midpoint `2^1024 - 2^970` above the largest finite double. -/
def pyOverflowNat : ℕ := Nat.pow 2 1024 - Nat.pow 2 970

/-- A Python float: an exact finite rational (idealizing mantissa rounding,
which is exact on every finite value the claims touch) or an infinity. -/
inductive PyFloat where
  | finite (q : ℚ)
  | inf
  | neginf
  deriving DecidableEq

/-- Unary minus on a Python float. -/
def pyNeg : PyFloat → PyFloat
  | .finite q => .finite (-q)
  | .inf => .neginf
  | .neginf => .inf

/-- The float denoted by an unsigned decimal literal with integer-part
value `iv`, fraction-digits value `fv` and fraction length `m`: saturates
to `inf` at the overflow bound (the integer comparison renders
`iv + fv/10^m ≥ 2^1024 - 2^970` exactly), otherwise the exact rational. -/
def floatSat (iv fv m : ℕ) : PyFloat :=
  if pyOverflowNat * 10 ^ m ≤ iv * 10 ^ m + fv then PyFloat.inf
  else .finite ((iv : ℚ) + (fv : ℚ) / (10 : ℚ) ^ m)

/-- `float_of_digits` with IEEE saturation: the same literal grammar and
`ValueError` conditions, with the value given by `floatSat`. -/
def float_of_digitsF (l : List Char) : Except String PyFloat :=
  let intPart := l.takeWhile (fun c => c != '.')
  let rest := l.dropWhile (fun c => c != '.')
  match rest with
  | [] =>
    if intPart ≠ [] ∧ intPart.all Char.isDigit then
      .ok (floatSat (digitsToNat intPart) 0 0)
    else .error "ValueError"
  | _ :: frac =>
    if (intPart ≠ [] ∨ frac ≠ []) ∧ intPart.all Char.isDigit ∧ frac.all Char.isDigit then
      .ok (floatSat (digitsToNat intPart) (digitsToNat frac) frac.length)
    else .error "ValueError"

/-- `float_of_str` with IEEE saturation: CPython `float(...)` on the
cleaned alphabet returns `±inf` past the overflow bound and raises only
`ValueError` (on bad syntax), never `OverflowError`. -/
def float_of_strF (s : String) : Except String PyFloat :=
  match s.data with
  | [] => float_of_digitsF []
  | c :: rest =>
    if c = '-' then (float_of_digitsF rest).map pyNeg
    else float_of_digitsF (c :: rest)

/-- `parse_float` in the saturating model: the `ValueError` is caught
exactly as in the source; an infinite result passes through as a value. -/
def parse_floatF : Json → Option PyFloat
  | .null => none
  | .bool b => some (.finite (if b then 1 else 0))
  | .num q => some (.finite q)
  | .str s =>
    match float_of_strF (cleanNumeric s) with
    | .ok f => some f
    | .error _ => none
  | .arr _ => none
  | .obj _ => none

/-- Python `int(...)` on a float: truncation toward zero when finite,
`OverflowError` when infinite.  The source catches no exception here. -/
def pyIntOfFloat : PyFloat → Except String ℤ
  | .finite q => .ok (pyTrunc q)
  | .inf => .error "OverflowError"
  | .neginf => .error "OverflowError"

/-- `parse_int` in the saturating model:
`int(num) if num is not None else None`, with the `OverflowError` of
`int(inf)` escaping, as in the source. -/
def parse_intF (v : Json) : Except String (Option ℤ) :=
  match parse_floatF v with
  | some f => (pyIntOfFloat f).map some
  | none => .ok none

/-! ## Field extractors -/

/-- Python `needle in hay` substring containment on character lists. -/
def containsSub (needle : List Char) (hay : List Char) : Bool :=
  match hay with
  | [] => needle.isEmpty
  | _ :: t => needle.isPrefixOf hay || containsSub needle t

/-- Python `needle in hay` on strings. -/
def strContains (hay needle : String) : Bool :=
  containsSub needle.data hay.data

def parse_bedrooms (d : Json) : Option ℚ :=
  parse_float (search_keys d ["beds", "bedrooms", "bed"])

def parse_bathrooms (d : Json) : Option ℚ :=
  parse_float (search_keys d ["baths", "bathrooms", "bath"])

def sqftKeys : List String :=
  ["sqft", "livingarea", "livingareasqft", "finishedsqft", "finishedarea",
   "grosslivingsqft"]

def parse_sqft (d : Json) : Option ℤ :=
  parse_int (search (fun k => sqftKeys.any fun key => strContains (pyLower (stripU k)) key) d)

/-- The lot-sqft key predicate of `parse_lot_sizes`:
`"lot" in k.lower() and any(s in k.lower() for s in ("sqft", "area"))`. -/
def lotSqftPred (k : String) : Bool :=
  strContains (pyLower k) "lot" &&
    (strContains (pyLower k) "sqft" || strContains (pyLower k) "area")

/-- The acreage key predicate of `parse_lot_sizes`: `"acre" in k.lower()`. -/
def acresPred (k : String) : Bool :=
  strContains (pyLower k) "acre"

/-- `parse_lot_sizes` from `src/rscraper/normalize.py`: two independent
searches, then cross-derivation of the missing unit with the constant
43560 sqft per acre. -/
def parse_lot_sizes (d : Json) : Option ℤ × Option ℚ :=
  let sqft_val := search lotSqftPred d
  let acres_val := search acresPred d
  let lot_size_sqft := parse_int sqft_val
  let lot_size_acres := parse_float acres_val
  match lot_size_sqft, lot_size_acres with
  | none, some a => (some (pyTrunc (a * 43560)), some a)
  | some s, none => (some s, some ((s : ℚ) / 43560))
  | s, a => (s, a)

/-- `parse_address_block` from `src/rscraper/normalize.py`; returns
`(address, city, state, zip)` as strings. -/
def parse_address_block (d : Json) : String × String × String × String :=
  let addr_obj := search_keys d ["address"]
  let (address, city, state, zip_code) :=
    match addr_obj with
    | .obj kvs =>
      (pyOr (search_keys (.obj kvs) ["line1", "street", "address1"]) (.str ""),
       pyOr (search_keys (.obj kvs) ["city", "cityname"]) (.str ""),
       pyOr (search_keys (.obj kvs) ["state", "statecode", "province"]) (.str ""),
       pyOr (search_keys (.obj kvs) ["postalcode", "zipcode", "zip", "postal"]) (.str ""))
    | .str s => (Json.str s, Json.str "", Json.str "", Json.str "")
    | _ => (Json.str "", Json.str "", Json.str "", Json.str "")
  let city := if pyTruthy city then city
    else pyOr (search_keys d ["city", "cityname"]) (.str "")
  let state := if pyTruthy state then state
    else pyOr (search_keys d ["state", "statecode", "province"]) (.str "")
  let zip_code := if pyTruthy zip_code then zip_code
    else pyOr (search_keys d ["postalcode", "zipcode", "zip", "postal"]) (.str "")
  (pyStr address, pyStr city, pyStr state, pyStr zip_code)

def parse_price (d : Json) : Option ℤ :=
  parse_int (search (fun k => strContains (pyLower k) "price") d)

def parse_year_built (d : Json) : Option ℤ :=
  parse_int (search_keys d ["yearbuilt", "built", "constructionyear"])

def parse_property_type (d : Json) : String :=
  match search (fun k => strContains (pyLower (stripU k)) "propertytype" ||
      pyLower k == "type" || pyLower k == "hometype") d with
  | .null => ""
  | v => pyStr v

def descKeys : List String := ["description", "remarks", "summary"]

def parse_description (d : Json) : String :=
  match search (fun k => descKeys.any fun s => strContains (pyLower (stripU k)) s) d with
  | .null => ""
  | v => pyStr v

def parse_rooms_total (d : Json) : Option ℚ :=
  parse_float (search (fun k => strContains (pyLower k) "room" &&
      strContains (pyLower k) "total") d)

/-! ## Amenity token harvesting and row assembly -/

/-- A delimiter of `re.split(r"[;,\n]", ·)`. -/
def isDelim (c : Char) : Bool :=
  c == ';' || c == ',' || c == '\n'

/-- `re.split(r"[;,\n]", ·)` on character lists (keeps empty pieces). -/
def splitDelims : List Char → List (List Char)
  | [] => [[]]
  | c :: t =>
    if isDelim c then [] :: splitDelims t
    else
      match splitDelims t with
      | [] => [[c]]
      | h :: r => (c :: h) :: r

/-- Split a harvested string on `;`/`,`/newline, strip each piece, keep the
non-empty ones. -/
def splitTokens (s : String) : List String :=
  (((splitDelims s.data).map pyStripL).filter fun l => l ≠ []).map fun l => (⟨l⟩ : String)

mutual
/-- The `_extract` closure of `collect_raw_amenities`: the amenity/feature
key test in the source selects the same recursion in both of its branches,
so this is a plain in-order traversal harvesting every string leaf. -/
def collectStrings : Json → List String
  | .obj kvs => collectKVs kvs
  | .arr xs => collectList xs
  | .str s => splitTokens s
  | _ => []
def collectKVs : JsonKVs → List String
  | .nil => []
  | .cons _ v rest => collectStrings v ++ collectKVs rest
def collectList : JsonList → List String
  | .nil => []
  | .cons v rest => collectStrings v ++ collectList rest
end

/-- `collect_raw_amenities` from `src/rscraper/normalize.py`. -/
def collect_raw_amenities (d : Json) (description_text : String) : List String :=
  collectStrings d ++ (if description_text ≠ "" then splitTokens description_text else [])

/-- `ListingRow` from `src/rscraper/normalize.py`.  `city` and `state` are
`Option String` because the fallback expression
`city or fallbacks.get("city", "")` evaluates to Python `None` when the
caller binds the fallback key explicitly to `None`, and the vendored
`pydantic` stub (a plain dataclass) stores that value unchecked. -/
structure ListingRow where
  source_url : String
  mls_id : String
  address : String
  city : Option String
  state : Option String
  zip : String
  beds : Option ℚ
  baths : Option ℚ
  rooms_total : Option ℚ
  sqft : Option ℤ
  year_built : Option ℤ
  lot_size_sqft : Option ℤ
  lot_size_acres : Option ℚ
  property_type : String
  price : Option ℤ
  amenities : List String
  description : String

/-- Python `fallbacks.get(key, "")` where the stored value may itself be
`None`: an explicit binding — even to `None` — wins over the `""` default. -/
def fbGet (fb : List (String × Option String)) (k : String) : Option String :=
  match fb.find? (fun p => p.1 == k) with
  | some p => p.2
  | none => some ""

/-- Python `s or x` where `s` is a string and `x` is a string-or-`None`. -/
def pyOrStr (s : String) (x : Option String) : Option String :=
  if s = "" then x else some s

/-- The mls-id key predicate of `to_listing_row`:
`k.lower() in {"mls_id", "mlsid", "listingid", "id"}`. -/
def mlsPred (k : String) : Bool :=
  ["mls_id", "mlsid", "listingid", "id"].contains (pyLower k)

/-- `to_listing_row` from `src/rscraper/normalize.py`. -/
def to_listing_row (raw_dict : Json) (source_url : String)
    (vocab : List (String × List String))
    (fallbacks : List (String × Option String)) : ListingRow :=
  let description := parse_description raw_dict
  let raw_tokens := collect_raw_amenities raw_dict description
  let amenities := normalize_amenities raw_tokens vocab (some description)
  let (lot_size_sqft, lot_size_acres) := parse_lot_sizes raw_dict
  let (address, city, state, zip_code) := parse_address_block raw_dict
  { source_url := source_url
    mls_id := pyStr (pyOr (search mlsPred raw_dict) (.str ""))
    address := address
    city := pyOrStr city (fbGet fallbacks "city")
    state := pyOrStr state (fbGet fallbacks "state")
    zip := zip_code
    beds := parse_bedrooms raw_dict
    baths := parse_bathrooms raw_dict
    rooms_total := parse_rooms_total raw_dict
    sqft := parse_sqft raw_dict
    year_built := parse_year_built raw_dict
    lot_size_sqft := lot_size_sqft
    lot_size_acres := lot_size_acres
    property_type := parse_property_type raw_dict
    price := parse_price raw_dict
    amenities := amenities
    description := description }

/-! ### Row assembly in the saturating model

The same searches and pipeline as `to_listing_row`, with the numeric
extractors drawn from the overflow-faithful refinement, so that the
`OverflowError` of `int()` propagates monadically — the source has no
handler anywhere between `int(...)` and the caller of `to_listing_row`. -/

def parse_bedroomsF (d : Json) : Option PyFloat :=
  parse_floatF (search_keys d ["beds", "bedrooms", "bed"])

def parse_bathroomsF (d : Json) : Option PyFloat :=
  parse_floatF (search_keys d ["baths", "bathrooms", "bath"])

def parse_rooms_totalF (d : Json) : Option PyFloat :=
  parse_floatF (search (fun k => strContains (pyLower k) "room" &&
      strContains (pyLower k) "total") d)

def parse_sqftF (d : Json) : Except String (Option ℤ) :=
  parse_intF (search (fun k => sqftKeys.any fun key => strContains (pyLower (stripU k)) key) d)

def parse_year_builtF (d : Json) : Except String (Option ℤ) :=
  parse_intF (search_keys d ["yearbuilt", "built", "constructionyear"])

def parse_priceF (d : Json) : Except String (Option ℤ) :=
  parse_intF (search (fun k => strContains (pyLower k) "price") d)

/-- `lot_size_acres * 43560` as Python float multiplication by a positive
integer: infinities propagate, and a finite product past the overflow
bound becomes `±inf` (CPython float arithmetic saturates; only `int()`
raises). -/
def pyMulPos (f : PyFloat) (c : ℚ) : PyFloat :=
  match f with
  | .finite q =>
    if (pyOverflowNat : ℚ) ≤ q * c then .inf
    else if q * c ≤ -(pyOverflowNat : ℚ) then .neginf
    else .finite (q * c)
  | .inf => .inf
  | .neginf => .neginf

/-- `parse_lot_sizes` in the saturating model.  The division
`lot_size_sqft / 43560` cannot overflow: a stored sqft value only exists
after a successful `int(...)`, so its magnitude is below `2^1024`. -/
def parse_lot_sizesF (d : Json) : Except String (Option ℤ × Option PyFloat) := do
  let sqft_val := search lotSqftPred d
  let acres_val := search acresPred d
  let lot_size_sqft ← parse_intF sqft_val
  let lot_size_acres := parse_floatF acres_val
  match lot_size_sqft, lot_size_acres with
  | none, some a => do
    let s ← pyIntOfFloat (pyMulPos a 43560)
    return (some s, some a)
  | some s, none => return (some s, some (.finite ((s : ℚ) / 43560)))
  | s, a => return (s, a)

/-- `ListingRow` in the saturating model: the float-typed fields hold
`PyFloat` values. -/
structure ListingRowF where
  source_url : String
  mls_id : String
  address : String
  city : Option String
  state : Option String
  zip : String
  beds : Option PyFloat
  baths : Option PyFloat
  rooms_total : Option PyFloat
  sqft : Option ℤ
  year_built : Option ℤ
  lot_size_sqft : Option ℤ
  lot_size_acres : Option PyFloat
  property_type : String
  price : Option ℤ
  amenities : List String
  description : String

/-- `to_listing_row` in the saturating model, with extractions performed
in the source's order and `int()` overflow escaping the call. -/
def to_listing_rowF (raw_dict : Json) (source_url : String)
    (vocab : List (String × List String))
    (fallbacks : List (String × Option String)) : Except String ListingRowF := do
  let description := parse_description raw_dict
  let raw_tokens := collect_raw_amenities raw_dict description
  let amenities := normalize_amenities raw_tokens vocab (some description)
  let (lot_size_sqft, lot_size_acres) ← parse_lot_sizesF raw_dict
  let (address, city, state, zip_code) := parse_address_block raw_dict
  let beds := parse_bedroomsF raw_dict
  let baths := parse_bathroomsF raw_dict
  let rooms_total := parse_rooms_totalF raw_dict
  let sqft ← parse_sqftF raw_dict
  let year_built ← parse_year_builtF raw_dict
  let property_type := parse_property_type raw_dict
  let price ← parse_priceF raw_dict
  return {
    source_url := source_url
    mls_id := pyStr (pyOr (search mlsPred raw_dict) (.str ""))
    address := address
    city := pyOrStr city (fbGet fallbacks "city")
    state := pyOrStr state (fbGet fallbacks "state")
    zip := zip_code
    beds := beds
    baths := baths
    rooms_total := rooms_total
    sqft := sqft
    year_built := year_built
    lot_size_sqft := lot_size_sqft
    lot_size_acres := lot_size_acres
    property_type := property_type
    price := price
    amenities := amenities
    description := description }

/-! ## Concrete candidates used by witnesses and counterexamples -/

/-- `{"a": {"beds": 2}, "bedrooms": 3}` — the search-precedence example. -/
def exC2 : Json :=
  .obj (.cons "a" (.obj (.cons "beds" (.num 2) .nil)) (.cons "bedrooms" (.num 3) .nil))

/-- `{"year_built": 1999}`. -/
def exYB : Json := .obj (.cons "year_built" (.num 1999) .nil)

/-- `{"beds": null, "bedrooms": 3}` — the null-valued-hit example. -/
def exC9 : Json := .obj (.cons "beds" .null (.cons "bedrooms" (.num 3) .nil))

/-- `{"lot_sqft": 21780}`. -/
def exLot1 : Json := .obj (.cons "lot_sqft" (.num 21780) .nil)

/-- `{"lotSizeAcres": 0.5}`. -/
def exLot2 : Json := .obj (.cons "lotSizeAcres" (.num (1/2)) .nil)

/-- `{"foo": 1}` — a candidate with no address data at all. -/
def exFoo : Json := .obj (.cons "foo" (.num 1) .nil)

/-- `{"sqft": "9" * 310}` — a numeric string past the double overflow
bound. -/
def exOverflow : Json :=
  .obj (.cons "sqft" (.str ⟨List.replicate 310 '9'⟩) .nil)

/-! ## Lemmas about the recursive search -/

/-- A key hit returns that key's value at once. -/
theorem searchKVs_cons_hit {p : String → Bool} {k : String} {v : Json} {rest : JsonKVs}
    (h : p k = true) : searchKVs p (.cons k v rest) = v := by
  simp [searchKVs, h]

/-- After a key miss, a non-`None` result inside that key's value wins over
everything that comes later in the mapping. -/
theorem searchKVs_cons_descend {p : String → Bool} {k : String} {v : Json} {rest : JsonKVs}
    (h : p k = false) (hv : search p v ≠ .null) :
    searchKVs p (.cons k v rest) = search p v := by
  cases hs : search p v with
  | null => exact absurd hs hv
  | bool b => simp [searchKVs, h, hs]
  | num q => simp [searchKVs, h, hs]
  | str s => simp [searchKVs, h, hs]
  | arr xs => simp [searchKVs, h, hs]
  | obj kvs => simp [searchKVs, h, hs]

mutual
/-- A predicate that rejects every key finds nothing. -/
theorem search_false (p : String → Bool) (hp : ∀ k, p k = false) :
    ∀ d : Json, search p d = .null
  | .null => rfl
  | .bool _ => rfl
  | .num _ => rfl
  | .str _ => rfl
  | .arr xs => searchArr_false p hp xs
  | .obj kvs => searchKVs_false p hp kvs
theorem searchKVs_false (p : String → Bool) (hp : ∀ k, p k = false) :
    ∀ kvs : JsonKVs, searchKVs p kvs = .null
  | .nil => rfl
  | .cons k v rest => by
    have hv := search_false p hp v
    have hr := searchKVs_false p hp rest
    simp [searchKVs, hp k, hv, hr]
theorem searchArr_false (p : String → Bool) (hp : ∀ k, p k = false) :
    ∀ xs : JsonList, searchArr p xs = .null
  | .nil => rfl
  | .cons v rest => by
    have hv := search_false p hp v
    have hr := searchArr_false p hp rest
    simp [searchArr, hv, hr]
end

/-! ## C2 — search precedence -/

/-- C2, counterexample: on `{"a": {"beds": 2}, "bedrooms": 3}` the
beds-family search returns the deeper `"beds"` value 2, not the shallow
sibling `"bedrooms"` value 3 that the claim predicts. -/
theorem c2_deep_match_wins_cex :
    parse_bedrooms exC2 = some 2 ∧ parse_bedrooms exC2 ≠ some 3 := by
  refine ⟨rfl, ?_⟩
  rw [show parse_bedrooms exC2 = some 2 from rfl]
  simp only [ne_eq, Option.some.injEq]
  norm_num

/-- C2 (amended): the search is depth-first with each key tested before
descending into that key's own value; a non-`None` match found inside an
earlier sibling's subtree wins over any later shallow sibling key, so on
`{"a": {"beds": 2}, "bedrooms": 3}` a beds-family search returns 2, not 3. -/
theorem c2_search_order (p : String → Bool) (k : String) (v : Json) (rest : JsonKVs) :
    (p k = true → searchKVs p (.cons k v rest) = v) ∧
    (p k = false → search p v ≠ .null → searchKVs p (.cons k v rest) = search p v) :=
  ⟨fun h => searchKVs_cons_hit h, fun h hv => searchKVs_cons_descend h hv⟩

/-- C2 witness: the amended order theorem instantiated on the spec's own
example, with both hypotheses discharged concretely. -/
theorem c2_search_order_witness :
    keysPred ["beds", "bedrooms", "bed"] "beds" = true ∧
    keysPred ["beds", "bedrooms", "bed"] "a" = false ∧
    search (keysPred ["beds", "bedrooms", "bed"]) (.obj (.cons "beds" (.num 2) .nil)) ≠ .null ∧
    searchKVs (keysPred ["beds", "bedrooms", "bed"])
        (.cons "beds" (.num 2) .nil) = .num 2 ∧
    searchKVs (keysPred ["beds", "bedrooms", "bed"])
        (.cons "a" (.obj (.cons "beds" (.num 2) .nil)) (.cons "bedrooms" (.num 3) .nil)) =
      search (keysPred ["beds", "bedrooms", "bed"]) (.obj (.cons "beds" (.num 2) .nil)) :=
  ⟨by decide, by decide, by decide,
   (c2_search_order (keysPred ["beds", "bedrooms", "bed"]) "beds" (.num 2) .nil).1 (by decide),
   (c2_search_order (keysPred ["beds", "bedrooms", "bed"]) "a"
       (.obj (.cons "beds" (.num 2) .nil)) (.cons "bedrooms" (.num 3) .nil)).2
     (by decide) (by decide)⟩

/-! ## C9 — a null-valued hit is indistinguishable from no match -/

/-- Spine recursion for C9: past a miss-only prefix, a matching key bound
to `None` makes the whole mapping search return `None`. -/
theorem c9_aux (p : String → Bool) (post : JsonKVs) (k : String) (hk : p k = true) :
    ∀ pre : JsonKVs, noHitKVs p pre = true →
      searchKVs p (kvsAppend pre (.cons k .null post)) = .null
  | .nil, _ => by simp [kvsAppend, searchKVs, hk]
  | .cons k' v' rest, hpre => by
    simp only [noHitKVs, Bool.and_eq_true, Bool.not_eq_eq_eq_not, Bool.not_true] at hpre
    obtain ⟨⟨hk', hv'⟩, hrest⟩ := hpre
    have hv'' : search p v' = .null := by
      cases hs : search p v' <;> simp [hs, isNull] at hv' ⊢
    have ih := c9_aux p post k hk rest hrest
    simp [kvsAppend, searchKVs, hk', hv'', ih]

/-- C9: when no earlier entry of a mapping produces a hit and the first
matching key is a direct key bound to `None`, the whole search returns
`None` (absent) — whatever matching entries follow. -/
theorem c9_null_hit_shadows (p : String → Bool) (pre post : JsonKVs) (k : String)
    (hpre : noHitKVs p pre = true) (hk : p k = true) :
    search p (.obj (kvsAppend pre (.cons k .null post))) = .null :=
  c9_aux p post k hk pre hpre

/-- C9 witness: searching beds-family keys in `{"beds": null, "bedrooms": 3}`
yields absent (and so does `parse_bedrooms`), not 3. -/
theorem c9_null_hit_shadows_witness :
    noHitKVs (keysPred ["beds", "bedrooms", "bed"]) .nil = true ∧
    keysPred ["beds", "bedrooms", "bed"] "beds" = true ∧
    search (keysPred ["beds", "bedrooms", "bed"]) exC9 = .null ∧
    parse_bedrooms exC9 = none :=
  ⟨rfl, by decide,
   c9_null_hit_shadows (keysPred ["beds", "bedrooms", "bed"]) .nil
     (.cons "bedrooms" (.num 3) .nil) "beds" rfl (by decide),
   rfl⟩

/-! ## C7 — candidate names are not stripped of underscores/hyphens -/

/-- `Char.toLower` only produces `'_'` from `'_'` itself. -/
theorem toLower_eq_underscore {c : Char} (h : Char.toLower c = '_') : c = '_' := by
  by_cases hc : 65 ≤ c.toNat ∧ c.toNat ≤ 90
  · exfalso
    obtain ⟨h1, h2⟩ := hc
    simp only [Char.toLower, ge_iff_le, if_pos (And.intro h1 h2)] at h
    obtain ⟨n, hn⟩ : ∃ n, c.toNat = n := ⟨_, rfl⟩
    rw [hn] at h h1 h2
    interval_cases n <;> exact absurd h (by decide)
  · simpa only [Char.toLower, ge_iff_le, if_neg hc] using h

/-- `Char.toLower` only produces `'-'` from `'-'` itself. -/
theorem toLower_eq_hyphen {c : Char} (h : Char.toLower c = '-') : c = '-' := by
  by_cases hc : 65 ≤ c.toNat ∧ c.toNat ≤ 90
  · exfalso
    obtain ⟨h1, h2⟩ := hc
    simp only [Char.toLower, ge_iff_le, if_pos (And.intro h1 h2)] at h
    obtain ⟨n, hn⟩ : ∃ n, c.toNat = n := ⟨_, rfl⟩
    rw [hn] at h h1 h2
    interval_cases n <;> exact absurd h (by decide)
  · simpa only [Char.toLower, ge_iff_le, if_neg hc] using h

/-- C7, counterexample: on `{"year_built": 1999}` the candidate spelled
`"year_built"` matches nothing, while its stripped spelling `"yearbuilt"`
finds the key — the candidate set is not normalized the way the claim
says. -/
theorem c7_candidate_not_stripped_cex :
    search_keys exYB ["year_built"] = .null ∧
    search_keys exYB ["yearbuilt"] = .num 1999 :=
  ⟨rfl, rfl⟩

/-- C7 (amended): only encountered keys are stripped of `_`/`-`; candidate
names are merely lower-cased, so a candidate that contains an underscore or
hyphen can never match any key: `searchKeys` returns absent on every node. -/
theorem c7_underscored_candidates_never_match (d : Json) (ks : List String)
    (h : ∀ k ∈ ks, ('_' ∈ k.data ∨ '-' ∈ k.data)) :
    search_keys d ks = .null := by
  apply search_false
  intro key
  cases hck : keysPred ks key with
  | false => rfl
  | true =>
    exfalso
    unfold keysPred at hck
    have hmem : pyLower (stripUH key) ∈ ks.map pyLower := by
      simpa [List.contains, List.elem_eq_mem] using hck
    obtain ⟨cand, hcand, heq⟩ := List.mem_map.mp hmem
    rcases h cand hcand with hu | hh
    · have h1 : '_' ∈ (pyLower cand).data := List.mem_map.mpr ⟨'_', hu, rfl⟩
      rw [heq] at h1
      obtain ⟨c, hc, hc'⟩ := List.mem_map.mp h1
      have hc'' := toLower_eq_underscore hc'
      subst hc''
      have hfil := List.of_mem_filter hc
      exact absurd hfil (by decide)
    · have h1 : '-' ∈ (pyLower cand).data := List.mem_map.mpr ⟨'-', hh, rfl⟩
      rw [heq] at h1
      obtain ⟨c, hc, hc'⟩ := List.mem_map.mp h1
      have hc'' := toLower_eq_hyphen hc'
      subst hc''
      have hfil := List.of_mem_filter hc
      exact absurd hfil (by decide)

/-- C7 witness: the amended theorem applied to `{"year_built": 1999}` with
the underscored candidate `"year_built"`. -/
theorem c7_underscored_candidates_never_match_witness :
    (∀ k ∈ (["year_built"] : List String), ('_' ∈ k.data ∨ '-' ∈ k.data)) ∧
    search_keys exYB ["year_built"] = .null :=
  ⟨by decide, c7_underscored_candidates_never_match exYB ["year_built"] (by decide)⟩

/-! ## C4 — lot-size cross-derivation -/

/-- C4: lot-size extraction cross-derives the missing unit with the
constant 43560 sqft per acre: a 21780-sqft hit with no acreage derives
0.5 acres; a 0.5-acre hit with no sqft derives 21780 sqft; two misses
leave both outputs absent. -/
theorem c4_lot_cross_derivation (d : Json) :
    (search lotSqftPred d = .num 21780 → search acresPred d = .null →
      parse_lot_sizes d = (some 21780, some (1/2))) ∧
    (search lotSqftPred d = .null → search acresPred d = .num (1/2) →
      parse_lot_sizes d = (some 21780, some (1/2))) ∧
    (search lotSqftPred d = .null → search acresPred d = .null →
      parse_lot_sizes d = (none, none)) := by
  refine ⟨fun h1 h2 => ?_, fun h1 h2 => ?_, fun h1 h2 => ?_⟩
  · simp only [parse_lot_sizes, h1, h2, parse_int, parse_float, Option.map]
    norm_num [pyTrunc]
  · simp only [parse_lot_sizes, h1, h2, parse_int, parse_float, Option.map]
    norm_num [pyTrunc]
  · simp [parse_lot_sizes, h1, h2, parse_int, parse_float]

/-- C4 witness: all three cases of the derivation theorem, instantiated on
`{"lot_sqft": 21780}`, `{"lotSizeAcres": 0.5}` and `{}`. -/
theorem c4_lot_cross_derivation_witness :
    (search lotSqftPred exLot1 = .num 21780 ∧ search acresPred exLot1 = .null ∧
      parse_lot_sizes exLot1 = (some 21780, some (1/2))) ∧
    (search lotSqftPred exLot2 = .null ∧ search acresPred exLot2 = .num (1/2) ∧
      parse_lot_sizes exLot2 = (some 21780, some (1/2))) ∧
    parse_lot_sizes (.obj .nil) = (none, none) :=
  ⟨⟨rfl, rfl, (c4_lot_cross_derivation exLot1).1 rfl rfl⟩,
   ⟨rfl, rfl, (c4_lot_cross_derivation exLot2).2.1 rfl rfl⟩,
   (c4_lot_cross_derivation (.obj .nil)).2.2 rfl rfl⟩

/-! ## Lemmas for C6: collapse-and-trim equals join-of-words -/

theorem dropWhile_of_all_neg {α} {p : α → Bool} :
    ∀ {l : List α}, (∀ a ∈ l, p a = false) → l.dropWhile p = l
  | [], _ => rfl
  | a :: t, h => by
    simp [List.dropWhile_cons, h a (by simp)]

theorem dropWhile_head_false {α} {p : α → Bool} :
    ∀ {l : List α} {c : α} {cs : List α}, l.dropWhile p = c :: cs → p c = false
  | [], _, _, h => by simp at h
  | a :: t, c, cs, h => by
    rw [List.dropWhile_cons] at h
    by_cases ha : p a
    · rw [if_pos ha] at h
      exact dropWhile_head_false h
    · rw [if_neg ha] at h
      cases h
      simpa using ha

theorem pyStripL_cons_space {c : Char} {x : List Char} (h : isSpaceChar c = true) :
    pyStripL (c :: x) = pyStripL x := by
  simp [pyStripL, List.dropWhile_cons, h]

theorem rstripL_nil : rstripL [] = [] := rfl

theorem rstripL_word_append {w z : List Char}
    (hw : ∀ c ∈ w, isSpaceChar c = false) : rstripL (w ++ z) = w ++ rstripL z := by
  unfold rstripL
  rw [List.reverse_append, List.dropWhile_append]
  by_cases hz : (z.reverse.dropWhile isSpaceChar).isEmpty
  · rw [if_pos hz]
    rw [dropWhile_of_all_neg (fun a ha => hw a (List.mem_reverse.mp ha))]
    rw [List.reverse_reverse]
    rw [List.isEmpty_iff] at hz
    rw [hz]
    simp
  · rw [if_neg hz]
    rw [List.reverse_append]
    simp

theorem rstripL_word {w : List Char} (hw : ∀ c ∈ w, isSpaceChar c = false) :
    rstripL w = w := by
  have h := rstripL_word_append (z := []) hw
  simpa [rstripL_nil] using h

theorem rstripL_cons_of_ne {a : Char} {z : List Char} (hz : rstripL z ≠ []) :
    rstripL (a :: z) = a :: rstripL z := by
  unfold rstripL
  rw [show (a :: z).reverse = z.reverse ++ [a] by simp]
  rw [List.dropWhile_append]
  have hz' : ¬(z.reverse.dropWhile isSpaceChar).isEmpty := by
    rw [List.isEmpty_iff]
    intro hcon
    exact hz (by simp [rstripL, hcon])
  rw [if_neg hz']
  simp

theorem pyStripL_cons_of_nonspace {c : Char} {x : List Char} (h : isSpaceChar c = false) :
    pyStripL (c :: x) = c :: rstripL x := by
  have h1 : pyStripL (c :: x) = rstripL ((c :: x).dropWhile isSpaceChar) := rfl
  rw [h1, List.dropWhile_cons, if_neg (by simp [h])]
  have h2 : rstripL ([c] ++ x) = [c] ++ rstripL x :=
    rstripL_word_append (by intro a ha; simp at ha; subst ha; exact h)
  simpa using h2

theorem collapseWS_cons_nonspace {c : Char} (h : isSpaceChar c = false) :
    ∀ t : List Char, collapseWS (c :: t) = c :: collapseWS t
  | [] => by simp [collapseWS, h]
  | d :: t' => by simp [collapseWS, h]

theorem collapseWS_cons_space {c : Char} (h : isSpaceChar c = true) :
    ∀ t : List Char, collapseWS (c :: t) = ' ' :: collapseWS (t.dropWhile isSpaceChar)
  | [] => by simp [collapseWS, h]
  | d :: t' => by
    by_cases hd : isSpaceChar d
    · rw [show collapseWS (c :: d :: t') = collapseWS (d :: t') by
          simp [collapseWS, h, hd]]
      rw [collapseWS_cons_space hd t']
      rw [List.dropWhile_cons, if_pos hd]
    · rw [show collapseWS (c :: d :: t') = ' ' :: collapseWS (d :: t') by
          simp [collapseWS, h, hd]]
      rw [List.dropWhile_cons, if_neg hd]

theorem collapseWS_word_append {w rest : List Char}
    (hw : ∀ c ∈ w, isSpaceChar c = false) :
    collapseWS (w ++ rest) = w ++ collapseWS rest := by
  induction w with
  | nil => rfl
  | cons c w' ih =>
    rw [List.cons_append, collapseWS_cons_nonspace (hw c (by simp)) (w' ++ rest)]
    rw [ih (fun x hx => hw x (by simp [hx]))]
    rfl

theorem wordsOf_nil : wordsOf [] = [] := by rw [wordsOf]

theorem wordsOf_cons_space {c : Char} {t : List Char} (h : isSpaceChar c = true) :
    wordsOf (c :: t) = wordsOf t := by
  rw [wordsOf, if_pos h]

theorem wordsOf_cons_nonspace {c : Char} {t : List Char} (h : isSpaceChar c = false) :
    wordsOf (c :: t) =
      (c :: t.takeWhile (fun x => !isSpaceChar x)) ::
        wordsOf (t.dropWhile (fun x => !isSpaceChar x)) := by
  rw [wordsOf, if_neg (by simp [h])]

theorem wordsOf_eq_nil_of_dropWhile : ∀ {l : List Char},
    l.dropWhile isSpaceChar = [] → wordsOf l = []
  | [], _ => wordsOf_nil
  | c :: t, h => by
    rw [List.dropWhile_cons] at h
    by_cases hc : isSpaceChar c
    · rw [if_pos hc] at h
      rw [wordsOf_cons_space hc]
      exact wordsOf_eq_nil_of_dropWhile h
    · rw [if_neg hc] at h
      simp at h

theorem wordsOf_dropWhile : ∀ l : List Char,
    wordsOf (l.dropWhile isSpaceChar) = wordsOf l
  | [] => rfl
  | c :: t => by
    by_cases hc : isSpaceChar c
    · rw [List.dropWhile_cons, if_pos hc, wordsOf_dropWhile t, wordsOf_cons_space hc]
    · rw [List.dropWhile_cons, if_neg hc]

theorem joinWords_cons_ne {w : List Char} {W : List (List Char)} (hW : W ≠ []) :
    joinWords (w :: W) = w ++ ' ' :: joinWords W := by
  cases W with
  | nil => exact absurd rfl hW
  | cons w' W' => rfl

/-- Collapsing whitespace runs and trimming both ends is the same as
joining the whitespace-free words with single spaces. -/
theorem stripCollapse_eq_joinWords : ∀ l : List Char,
    pyStripL (collapseWS l) = joinWords (wordsOf l) := by
  suffices h : ∀ n (l : List Char), l.length ≤ n →
      pyStripL (collapseWS l) = joinWords (wordsOf l) from
    fun l => h l.length l le_rfl
  intro n
  induction n with
  | zero =>
    intro l hl
    have hnil : l = [] := List.eq_nil_of_length_eq_zero (Nat.le_zero.mp hl)
    subst hnil
    simp [collapseWS, pyStripL, wordsOf_nil, joinWords]
  | succ n ih =>
    intro l hl
    cases l with
    | nil => simp [collapseWS, pyStripL, wordsOf_nil, joinWords]
    | cons c t =>
      have ht : t.length ≤ n := by
        simp only [List.length_cons] at hl
        omega
      by_cases hc : isSpaceChar c
      · rw [collapseWS_cons_space hc t,
          pyStripL_cons_space (show isSpaceChar ' ' = true by decide),
          wordsOf_cons_space hc, ← wordsOf_dropWhile t]
        exact ih _ (le_trans (List.dropWhile_sublist _).length_le ht)
      · have hc' : isSpaceChar c = false := by simpa using hc
        rw [collapseWS_cons_nonspace hc' t, pyStripL_cons_of_nonspace hc',
          wordsOf_cons_nonspace hc']
        have hsplit : t.takeWhile (fun x => !isSpaceChar x) ++
            t.dropWhile (fun x => !isSpaceChar x) = t :=
          List.takeWhile_append_dropWhile _ _
        have hw : ∀ x ∈ t.takeWhile (fun x => !isSpaceChar x),
            isSpaceChar x = false := by
          intro x hx
          simpa using List.mem_takeWhile_imp hx
        conv_lhs => rw [← hsplit]
        rw [collapseWS_word_append hw]
        cases hrest : t.dropWhile (fun x => !isSpaceChar x) with
        | nil =>
          rw [wordsOf_nil]
          rw [show collapseWS [] = [] from rfl, List.append_nil, rstripL_word hw]
          rfl
        | cons r0 r' =>
          have hr0 : isSpaceChar r0 = true := by
            have := dropWhile_head_false hrest
            simpa using this
          rw [collapseWS_cons_space hr0 r', wordsOf_cons_space hr0]
          cases hu : r'.dropWhile isSpaceChar with
          | nil =>
            rw [show collapseWS [] = [] from rfl]
            rw [rstripL_word_append hw,
              show rstripL [' '] = [] from rfl, List.append_nil]
            rw [← wordsOf_dropWhile r', hu, wordsOf_nil]
            rfl
          | cons u0 u' =>
            have hu0 : isSpaceChar u0 = false := dropWhile_head_false hu
            rw [collapseWS_cons_nonspace hu0 u']
            have hux : rstripL (u0 :: collapseWS u') =
                [u0] ++ rstripL (collapseWS u') :=
              rstripL_word_append (w := [u0]) (z := collapseWS u') (by
                intro x hx
                simp only [List.mem_singleton] at hx
                subst hx
                exact hu0)
            have hne : rstripL (u0 :: collapseWS u') ≠ [] := by
              rw [hux]
              simp
            rw [rstripL_word_append hw, rstripL_cons_of_ne hne]
            have hkey : rstripL (u0 :: collapseWS u') =
                pyStripL (collapseWS (u0 :: u')) := by
              rw [collapseWS_cons_nonspace hu0 u']
              rw [show pyStripL (u0 :: collapseWS u') =
                  rstripL ((u0 :: collapseWS u').dropWhile isSpaceChar) from rfl]
              rw [List.dropWhile_cons, if_neg (by simp [hu0])]
            have hlen : (u0 :: u').length ≤ n := by
              have h1 : (r0 :: r').length ≤ t.length := by
                rw [← hrest]
                exact (List.dropWhile_sublist _).length_le
              have h2 : (u0 :: u').length ≤ r'.length := by
                rw [← hu]
                exact (List.dropWhile_sublist _).length_le
              simp only [List.length_cons] at h1 h2 ⊢
              omega
            rw [hkey, ih (u0 :: u') hlen]
            have hwr : wordsOf r' = wordsOf (u0 :: u') := by
              rw [← wordsOf_dropWhile r', hu]
            rw [hwr]
            have hWne : wordsOf (u0 :: u') ≠ [] := by
              rw [wordsOf_cons_nonspace hu0]
              simp
            rw [joinWords_cons_ne hWne]
            simp

/-! ## C6 — the sanitizer keeps underscores -/

/-- C6, counterexample: `sanitize` keeps the underscore of `"a_b"` (Python's
`\w` class contains `_`), whereas the claimed description — which replaces
underscores like punctuation — would produce `"a b"`. -/
theorem c6_underscore_kept_cex :
    sanitize "a_b" = "a_b" ∧ sanitizeClaimed "a_b" = "a b" ∧ ("a_b" : String) ≠ "a b" :=
  ⟨by decide, by decide, by decide⟩

/-- C6 (amended): for every input string, `sanitize` lower-cases the text,
replaces every character that is neither a word character (alphanumeric or
underscore) nor whitespace with a space, collapses every whitespace run to
a single space and trims both ends — equivalently, it joins the
whitespace-free words of the lower-cased, punctuation-replaced text with
single spaces.  (On the ASCII fragment of the embedding.) -/
theorem c6_sanitize_spec (s : String) : sanitize s = sanitizeAmended s :=
  congrArg String.mk (stripCollapse_eq_joinWords _)

/-! ## Lemmas for C1: values of the reverse index, and the found set -/

theorem dinsert_values {P : String → Prop} {m : List (String × String)} {k v : String}
    (hm : ∀ p ∈ m, P p.2) (hv : P v) : ∀ p ∈ dinsert m k v, P p.2 := by
  intro p hp
  unfold dinsert at hp
  by_cases hany : m.any (fun q => q.1 == k)
  · rw [if_pos hany] at hp
    obtain ⟨q, hq, hqe⟩ := List.mem_map.mp hp
    by_cases hqk : q.1 == k
    · rw [if_pos hqk] at hqe
      subst hqe
      exact hv
    · rw [if_neg hqk] at hqe
      subst hqe
      exact hm q hq
  · rw [if_neg hany] at hp
    rcases List.mem_append.mp hp with h | h
    · exact hm p h
    · rw [List.mem_singleton] at h
      subst h
      exact hv

theorem revInsertSyns_values {P : String → Prop} {canonical : String} (hc : P canonical) :
    ∀ (syns : List String) (rev : List (String × String)),
      (∀ p ∈ rev, P p.2) → ∀ p ∈ revInsertSyns canonical rev syns, P p.2
  | [], _, hrev => hrev
  | s :: syns', rev, hrev => by
    simp only [revInsertSyns, List.foldl_cons]
    exact revInsertSyns_values hc syns' _ (dinsert_values hrev hc)

theorem revInsertEntry_values {P : String → Prop} {rev : List (String × String)}
    {e : String × List String} (he : P (pyStrip e.1)) (hrev : ∀ p ∈ rev, P p.2) :
    ∀ p ∈ revInsertEntry rev e, P p.2 :=
  revInsertSyns_values he e.2 _ (dinsert_values hrev he)

theorem foldl_entries_values {P : String → Prop} :
    ∀ (sub : List (String × List String)) (rev : List (String × String)),
      (∀ e ∈ sub, P (pyStrip e.1)) → (∀ p ∈ rev, P p.2) →
      ∀ p ∈ sub.foldl revInsertEntry rev, P p.2
  | [], _, _, hrev => hrev
  | e :: sub', rev, hsub, hrev => by
    rw [List.foldl_cons]
    exact foldl_entries_values sub' _ (fun x hx => hsub x (by simp [hx]))
      (revInsertEntry_values (hsub e (by simp)) hrev)

/-- Every value stored in the reverse index satisfies whatever holds of the
stripped vocabulary keys. -/
theorem reverse_vocab_values {P : String → Prop} {vocab : List (String × List String)}
    (hkeys : ∀ e ∈ vocab, P (pyStrip e.1)) :
    ∀ p ∈ reverse_vocab vocab, P p.2 :=
  foldl_entries_values vocab [] hkeys (by simp)

theorem dlookup_value {m : List (String × String)} {k canon : String}
    (h : dlookup m k = some canon) : ∃ p ∈ m, p.2 = canon := by
  unfold dlookup at h
  cases hf : m.find? (fun p => p.1 == k) with
  | none => rw [hf] at h; simp at h
  | some q =>
    rw [hf] at h
    simp at h
    exact ⟨q, List.mem_of_find?_eq_some hf, h⟩

theorem tokenScan_mem {P : String → Prop} {rev : List (String × String)}
    (hrev : ∀ p ∈ rev, P p.2) :
    ∀ (tokens found : List String),
      (∀ x ∈ found, P x) → ∀ x ∈ tokenScan rev found tokens, P x
  | [], _, hf => hf
  | tkn :: tokens', found, hf => by
    simp only [tokenScan, List.foldl_cons]
    cases hl : dlookup rev (sanitize tkn) with
    | none =>
      simp only [hl]
      exact tokenScan_mem hrev tokens' found hf
    | some canon =>
      simp only [hl]
      refine tokenScan_mem hrev tokens' _ ?_
      intro x hx
      rcases List.mem_insert_iff.mp hx with h | h
      · subst h
        obtain ⟨p, hp, hpc⟩ := dlookup_value hl
        exact hpc ▸ hrev p hp
      · exact hf x h

theorem descScan_mem {P : String → Prop} {text : String} :
    ∀ (rev : List (String × String)) (found : List String),
      (∀ p ∈ rev, P p.2) → (∀ x ∈ found, P x) →
      ∀ x ∈ descScan text found rev, P x
  | [], _, _, hf => hf
  | p :: rev', found, hrev, hf => by
    simp only [descScan, List.foldl_cons]
    by_cases hws : wordSearch p.1.data text.data
    · rw [if_pos hws]
      refine descScan_mem rev' _ (fun q hq => hrev q (by simp [hq])) ?_
      intro x hx
      rcases List.mem_insert_iff.mp hx with h | h
      · subst h
        exact hrev p (by simp)
      · exact hf x h
    · rw [if_neg hws]
      exact descScan_mem rev' found (fun q hq => hrev q (by simp [hq])) hf

theorem tokenScan_nodup {rev : List (String × String)} :
    ∀ (tokens found : List String), found.Nodup → (tokenScan rev found tokens).Nodup
  | [], _, hf => hf
  | tkn :: tokens', found, hf => by
    simp only [tokenScan, List.foldl_cons]
    cases hl : dlookup rev (sanitize tkn) with
    | none => simpa only [hl] using tokenScan_nodup tokens' found hf
    | some canon => simpa only [hl] using tokenScan_nodup tokens' _ hf.insert

theorem descScan_nodup {text : String} :
    ∀ (rev : List (String × String)) (found : List String), found.Nodup →
      (descScan text found rev).Nodup
  | [], _, hf => hf
  | p :: rev', found, hf => by
    simp only [descScan, List.foldl_cons]
    by_cases hws : wordSearch p.1.data text.data
    · rw [if_pos hws]
      exact descScan_nodup rev' _ hf.insert
    · rw [if_neg hws]
      exact descScan_nodup rev' found hf

/-- Sorting a duplicate-free list of strings with `sorted(...)` yields a
strictly increasing list with the same members. -/
theorem mergeSort_sorted_lt {l : List String} (hn : l.Nodup) :
    (l.mergeSort (fun a b => decide (a ≤ b))).Sorted (· < ·) ∧
    ∀ x, x ∈ l.mergeSort (fun a b => decide (a ≤ b)) ↔ x ∈ l := by
  have hperm := List.mergeSort_perm l (fun a b => decide (a ≤ b))
  have hpair : (l.mergeSort (fun a b => decide (a ≤ b))).Pairwise
      (fun a b => decide (a ≤ b) = true) := List.sorted_mergeSort
      (fun a b c h1 h2 => by
        simp only [decide_eq_true_eq] at h1 h2 ⊢
        exact le_trans h1 h2)
      (fun a b => by
        simp only [Bool.or_eq_true, decide_eq_true_eq]
        exact le_total a b)
      l
  have hle : (l.mergeSort (fun a b => decide (a ≤ b))).Sorted (· ≤ ·) := by
    refine hpair.imp ?_
    intro a b h
    simpa using h
  have hnd : (l.mergeSort (fun a b => decide (a ≤ b))).Nodup :=
    hperm.nodup_iff.mpr hn
  exact ⟨hle.lt_of_le hnd, fun x => hperm.mem_iff⟩

/-- Unfolding of `normalize_amenities` into its named stages. -/
theorem normalize_amenities_eq (tokens : List String)
    (vocab : List (String × List String)) (desc : Option String) :
    normalize_amenities tokens vocab desc =
      (match desc with
        | some d =>
          if d ≠ "" then
            descScan (sanitize d) (tokenScan (reverse_vocab vocab) [] tokens)
              (reverse_vocab vocab)
          else tokenScan (reverse_vocab vocab) [] tokens
        | none => tokenScan (reverse_vocab vocab) [] tokens).mergeSort
        (fun a b => decide (a ≤ b)) := rfl

/-! ## C1 — output of `normalize_amenities` -/

unseal List.merge List.mergeSort in
/-- C1, counterexample: with vocabulary `{" pool ": []}` (a key carrying
surrounding whitespace) and token `"pool"`, the returned label is the
stripped `"pool"`, which is not a key of the vocabulary. -/
theorem c1_label_not_key_cex :
    normalize_amenities ["pool"] [(" pool ", [])] none = ["pool"] ∧
    ("pool" : String) ∉ ([(" pool ", ([] : List String))].map Prod.fst) :=
  ⟨by decide, by decide⟩

/-- C1 (amended): `normalizeAmenities` returns a strictly sorted (hence
duplicate-free, lexicographically ordered) sequence, and every returned
label is the `strip()` of some key of the vocabulary — hence a key of the
vocabulary whenever its keys carry no surrounding whitespace. -/
theorem c1_sorted_nodup_labels (vocab : List (String × List String))
    (tokens : List String) (desc : Option String) :
    (normalize_amenities tokens vocab desc).Sorted (· < ·) ∧
    ∀ lbl ∈ normalize_amenities tokens vocab desc,
      ∃ k syns, (k, syns) ∈ vocab ∧ lbl = pyStrip k := by
  rw [normalize_amenities_eq]
  have hrev : ∀ p ∈ reverse_vocab vocab,
      ∃ k syns, (k, syns) ∈ vocab ∧ p.2 = pyStrip k :=
    reverse_vocab_values (P := fun x => ∃ k syns, (k, syns) ∈ vocab ∧ x = pyStrip k)
      (fun e he => ⟨e.1, e.2, by simpa using he, rfl⟩)
  have hbase := tokenScan_mem (P := fun x => ∃ k syns, (k, syns) ∈ vocab ∧ x = pyStrip k)
    hrev tokens [] (by simp)
  have hbnd := @tokenScan_nodup (reverse_vocab vocab) tokens [] (by simp)
  cases desc with
  | none =>
    obtain ⟨hs, hm⟩ := mergeSort_sorted_lt hbnd
    exact ⟨hs, fun lbl hl => hbase lbl ((hm lbl).mp hl)⟩
  | some d =>
    have hred : (match some d with
        | some d =>
          if d ≠ "" then
            descScan (sanitize d) (tokenScan (reverse_vocab vocab) [] tokens)
              (reverse_vocab vocab)
          else tokenScan (reverse_vocab vocab) [] tokens
        | none => tokenScan (reverse_vocab vocab) [] tokens) =
        if d ≠ "" then
          descScan (sanitize d) (tokenScan (reverse_vocab vocab) [] tokens)
            (reverse_vocab vocab)
        else tokenScan (reverse_vocab vocab) [] tokens := rfl
    rw [hred]
    by_cases hd : d ≠ ""
    · rw [if_pos hd]
      have hmem2 := @descScan_mem
        (fun x => ∃ k syns, (k, syns) ∈ vocab ∧ x = pyStrip k)
        (sanitize d) (reverse_vocab vocab)
        (tokenScan (reverse_vocab vocab) [] tokens) hrev hbase
      have hnd2 := @descScan_nodup (sanitize d) (reverse_vocab vocab)
        (tokenScan (reverse_vocab vocab) [] tokens) hbnd
      obtain ⟨hs, hm⟩ := mergeSort_sorted_lt hnd2
      exact ⟨hs, fun lbl hl => hmem2 lbl ((hm lbl).mp hl)⟩
    · rw [if_neg hd]
      obtain ⟨hs, hm⟩ := mergeSort_sorted_lt hbnd
      exact ⟨hs, fun lbl hl => hbase lbl ((hm lbl).mp hl)⟩

/-! ## C5 — description scanning is whole-word only -/

/-- `normalize_amenities` with a non-empty description, staged. -/
theorem normalize_amenities_some (tokens : List String)
    (vocab : List (String × List String)) (d : String) (hd : d ≠ "") :
    normalize_amenities tokens vocab (some d) =
      (descScan (sanitize d) (tokenScan (reverse_vocab vocab) [] tokens)
        (reverse_vocab vocab)).mergeSort (fun a b => decide (a ≤ b)) := by
  unfold normalize_amenities
  simp [hd]

/-- Tokens that all miss the reverse index leave the found set unchanged. -/
theorem tokenScan_all_miss {rev : List (String × String)} :
    ∀ (tokens found : List String),
      (∀ t ∈ tokens, dlookup rev (sanitize t) = none) →
      tokenScan rev found tokens = found
  | [], _, _ => rfl
  | tkn :: tokens', found, h => by
    simp only [tokenScan, List.foldl_cons, h tkn (by simp)]
    exact tokenScan_all_miss tokens' found (fun t ht => h t (by simp [ht]))

/-- C5: scanning the description only matches whole words.  For any
canonical label `c`, any token list that does not hit the reverse index,
and any description sanitizing to `"carpool lane"`, a vocabulary making
`"pool"` a synonym of `c` adds nothing: the `"pool"` inside `"carpool"`
has no word boundary, and by hypothesis `c`'s own sanitized form does not
word-match the text either. -/
theorem c5_whole_word_only (c d : String) (tokens : List String)
    (hd : sanitize d = "carpool lane")
    (hc : wordSearch (sanitize (pyStrip c)).data (sanitize d).data = false)
    (htok : ∀ t ∈ tokens, dlookup (reverse_vocab [(c, ["pool"])]) (sanitize t) = none) :
    normalize_amenities tokens [(c, ["pool"])] (some d) = [] := by
  have hdne : d ≠ "" := by
    intro h
    rw [h] at hd
    exact absurd hd (by decide)
  rw [normalize_amenities_some tokens [(c, ["pool"])] d hdne]
  rw [tokenScan_all_miss tokens [] htok]
  have hpool : wordSearch "pool".data (sanitize d).data = false := by
    rw [hd]
    decide
  have hrv : reverse_vocab [(c, ["pool"])] =
      dinsert [(sanitize (pyStrip c), pyStrip c)] "pool" (pyStrip c) := rfl
  rw [hrv]
  by_cases hcp : sanitize (pyStrip c) = "pool"
  · have hdi : dinsert [(sanitize (pyStrip c), pyStrip c)] "pool" (pyStrip c) =
        [("pool", pyStrip c)] := by
      simp [dinsert, hcp]
    rw [hdi]
    simp [descScan, hpool, List.mergeSort_nil]
  · have hdi : dinsert [(sanitize (pyStrip c), pyStrip c)] "pool" (pyStrip c) =
        [(sanitize (pyStrip c), pyStrip c), ("pool", pyStrip c)] := by
      simp [dinsert, hcp]
    rw [hdi]
    simp [descScan, hc, hpool, List.mergeSort_nil]

/-- C5 witness: canonical `"Pool"`, synonym `"pool"`, description
`"carpool lane"` — no amenity is reported. -/
theorem c5_whole_word_only_witness :
    sanitize "carpool lane" = "carpool lane" ∧
    wordSearch (sanitize (pyStrip "Pool")).data (sanitize "carpool lane").data = false ∧
    normalize_amenities ["solar panels"] [("Pool", ["pool"])] (some "carpool lane") = [] :=
  ⟨by decide, by decide,
   c5_whole_word_only "Pool" "carpool lane" ["solar panels"] (by decide) (by decide)
     (by intro t ht; simp at ht; subst ht; decide)⟩

/-! ## Lemmas for C8: key-free trees make every related search miss -/

mutual
/-- No key of the tree satisfies `p` — then the search for `p` misses. -/
theorem hasKeyP_search_null {p : String → Bool} :
    ∀ d : Json, hasKeyP p d = false → search p d = .null
  | .null, _ => rfl
  | .bool _, _ => rfl
  | .num _, _ => rfl
  | .str _, _ => rfl
  | .obj kvs, h => hasKeyKVs_search_null kvs h
  | .arr xs, h => hasKeyList_search_null xs h
theorem hasKeyKVs_search_null {p : String → Bool} :
    ∀ kvs : JsonKVs, hasKeyKVs p kvs = false → searchKVs p kvs = .null
  | .nil, _ => rfl
  | .cons k v rest, h => by
    simp only [hasKeyKVs, Bool.or_eq_false_iff] at h
    obtain ⟨⟨hk, hv⟩, hrest⟩ := h
    have h1 := hasKeyP_search_null v hv
    have h2 := hasKeyKVs_search_null rest hrest
    simp [searchKVs, hk, h1, h2]
theorem hasKeyList_search_null {p : String → Bool} :
    ∀ xs : JsonList, hasKeyList p xs = false → searchArr p xs = .null
  | .nil, _ => rfl
  | .cons v rest, h => by
    simp only [hasKeyList, Bool.or_eq_false_iff] at h
    obtain ⟨hv, hrest⟩ := h
    have h1 := hasKeyP_search_null v hv
    have h2 := hasKeyList_search_null rest hrest
    simp [searchArr, h1, h2]
end

mutual
/-- If no key of the tree satisfies `p`, no key of any search result
(a subtree, or `None`) satisfies `p` either. -/
theorem hasKeyP_search {p q : String → Bool} :
    ∀ d : Json, hasKeyP p d = false → hasKeyP p (search q d) = false
  | .null, _ => rfl
  | .bool _, _ => rfl
  | .num _, _ => rfl
  | .str _, _ => rfl
  | .obj kvs, h => hasKeyP_searchKVs kvs h
  | .arr xs, h => hasKeyP_searchList xs h
theorem hasKeyP_searchKVs {p q : String → Bool} :
    ∀ kvs : JsonKVs, hasKeyKVs p kvs = false → hasKeyP p (searchKVs q kvs) = false
  | .nil, _ => rfl
  | .cons k v rest, h => by
    simp only [hasKeyKVs, Bool.or_eq_false_iff] at h
    obtain ⟨⟨hk, hv⟩, hrest⟩ := h
    have h1 := hasKeyP_search (q := q) v hv
    have h2 := hasKeyP_searchKVs (q := q) rest hrest
    by_cases hq : q k
    · simpa [searchKVs, hq] using hv
    · cases hs : search q v
      · simpa [searchKVs, hq, hs] using h2
      all_goals (rw [hs] at h1; simpa [searchKVs, hq, hs] using h1)
theorem hasKeyP_searchList {p q : String → Bool} :
    ∀ xs : JsonList, hasKeyList p xs = false → hasKeyP p (searchArr q xs) = false
  | .nil, _ => rfl
  | .cons v rest, h => by
    simp only [hasKeyList, Bool.or_eq_false_iff] at h
    obtain ⟨hv, hrest⟩ := h
    have h1 := hasKeyP_search (q := q) v hv
    have h2 := hasKeyP_searchList (q := q) rest hrest
    cases hs : search q v
    · simpa [searchArr, hs] using h2
    all_goals (rw [hs] at h1; simpa [searchArr, hs] using h1)
end

/-- Candidates with no city/state key anywhere extract empty city and
state strings. -/
theorem parse_address_block_empty {d : Json}
    (hcity : hasKeyP (keysPred ["city", "cityname"]) d = false)
    (hstate : hasKeyP (keysPred ["state", "statecode", "province"]) d = false) :
    (parse_address_block d).2.1 = "" ∧ (parse_address_block d).2.2.1 = "" := by
  have hc := hasKeyP_search_null d hcity
  have hs := hasKeyP_search_null d hstate
  unfold parse_address_block search_keys
  cases haddr : search (keysPred ["address"]) d with
  | obj kvs =>
    have hsubc : hasKeyP (keysPred ["city", "cityname"]) (Json.obj kvs) = false := by
      rw [← haddr]
      exact hasKeyP_search d hcity
    have hsubs : hasKeyP (keysPred ["state", "statecode", "province"])
        (Json.obj kvs) = false := by
      rw [← haddr]
      exact hasKeyP_search d hstate
    have hnc := hasKeyP_search_null _ hsubc
    have hns := hasKeyP_search_null _ hsubs
    simp [hc, hs, hnc, hns, pyOr, pyTruthy, pyStr]
  | null => simp [hc, hs, pyOr, pyTruthy, pyStr]
  | bool b => simp [hc, hs, pyOr, pyTruthy, pyStr]
  | num q => simp [hc, hs, pyOr, pyTruthy, pyStr]
  | str s => simp [hc, hs, pyOr, pyTruthy, pyStr]
  | arr xs => simp [hc, hs, pyOr, pyTruthy, pyStr]

/-- The city and state fields of the assembled row, in terms of the
extracted address block and the fallback mapping. -/
theorem to_listing_row_city_state (d : Json) (url : String)
    (vocab : List (String × List String)) (fb : List (String × Option String)) :
    (to_listing_row d url vocab fb).city =
      (if (parse_address_block d).2.1 = "" then fbGet fb "city"
       else some (parse_address_block d).2.1) ∧
    (to_listing_row d url vocab fb).state =
      (if (parse_address_block d).2.2.1 = "" then fbGet fb "state"
       else some (parse_address_block d).2.2.1) := by
  rcases hl : parse_lot_sizes d with ⟨ls, la⟩
  rcases ha : parse_address_block d with ⟨a, cty, st, z⟩
  simp [to_listing_row, hl, ha, pyOrStr]

/-! ## C8 — city/state fallbacks apply exactly on empty extraction -/

/-- C8: the caller-supplied city/state fallbacks are consulted exactly when
extraction yields the empty string; in particular a candidate with no
city or state key anywhere, under fallbacks
`{"city": "FallbackVille", "state": "CA"}`, yields that city and state. -/
theorem c8_fallback_exactly_on_empty (d : Json) (url : String)
    (vocab : List (String × List String)) (fb : List (String × Option String)) :
    ((to_listing_row d url vocab fb).city =
        (if (parse_address_block d).2.1 = "" then fbGet fb "city"
         else some (parse_address_block d).2.1) ∧
      (to_listing_row d url vocab fb).state =
        (if (parse_address_block d).2.2.1 = "" then fbGet fb "state"
         else some (parse_address_block d).2.2.1)) ∧
    (hasKeyP (keysPred ["city", "cityname"]) d = false →
      hasKeyP (keysPred ["state", "statecode", "province"]) d = false →
      (to_listing_row d url vocab
          [("city", some "FallbackVille"), ("state", some "CA")]).city =
          some "FallbackVille" ∧
        (to_listing_row d url vocab
            [("city", some "FallbackVille"), ("state", some "CA")]).state =
          some "CA") := by
  constructor
  · exact to_listing_row_city_state d url vocab fb
  · intro hc hs
    obtain ⟨hce, hse⟩ := parse_address_block_empty hc hs
    obtain ⟨h1, h2⟩ := to_listing_row_city_state d url vocab
      [("city", some "FallbackVille"), ("state", some "CA")]
    rw [h1, if_pos hce, h2, if_pos hse]
    exact ⟨rfl, rfl⟩

/-- C8 witness: `{"foo": 1}` has no city/state key anywhere; with the
claim's fallbacks the row carries `"FallbackVille"` and `"CA"`. -/
theorem c8_fallback_exactly_on_empty_witness :
    hasKeyP (keysPred ["city", "cityname"]) exFoo = false ∧
    hasKeyP (keysPred ["state", "statecode", "province"]) exFoo = false ∧
    (to_listing_row exFoo "http://example.com/1" []
        [("city", some "FallbackVille"), ("state", some "CA")]).city =
      some "FallbackVille" ∧
    (to_listing_row exFoo "http://example.com/1" []
        [("city", some "FallbackVille"), ("state", some "CA")]).state = some "CA" := by
  refine ⟨by decide, by decide, ?_, ?_⟩
  · exact ((c8_fallback_exactly_on_empty exFoo "http://example.com/1" []
      [("city", some "FallbackVille"), ("state", some "CA")]).2
      (by decide) (by decide)).1
  · exact ((c8_fallback_exactly_on_empty exFoo "http://example.com/1" []
      [("city", some "FallbackVille"), ("state", some "CA")]).2
      (by decide) (by decide)).2

/-! ## C10 — an explicitly-null fallback is carried into the row -/

/-- C10: when the fallbacks mapping binds `"city"` (resp. `"state"`)
explicitly to `None` and extraction yields the empty string, the assembled
row carries `None` in that field — the schema's empty-string default is not
restored. -/
theorem c10_null_fallback_carried (d : Json) (url : String)
    (vocab : List (String × List String)) (fb : List (String × Option String)) :
    (fbGet fb "city" = none → (parse_address_block d).2.1 = "" →
      (to_listing_row d url vocab fb).city = none) ∧
    (fbGet fb "state" = none → (parse_address_block d).2.2.1 = "" →
      (to_listing_row d url vocab fb).state = none) := by
  obtain ⟨h1, h2⟩ := to_listing_row_city_state d url vocab fb
  constructor
  · intro hf he
    rw [h1, if_pos he, hf]
  · intro hf he
    rw [h2, if_pos he, hf]

/-- C10 witness: fallbacks `{"city": None, "state": None}` on `{"foo": 1}`
put `None` in both fields. -/
theorem c10_null_fallback_carried_witness :
    fbGet [("city", none), ("state", none)] "city" = none ∧
    fbGet [("city", none), ("state", none)] "state" = none ∧
    (parse_address_block exFoo).2.1 = "" ∧
    (parse_address_block exFoo).2.2.1 = "" ∧
    (to_listing_row exFoo "u" [] [("city", none), ("state", none)]).city = none ∧
    (to_listing_row exFoo "u" [] [("city", none), ("state", none)]).state = none :=
  ⟨rfl, rfl, rfl, rfl,
   (c10_null_fallback_carried exFoo "u" [] [("city", none), ("state", none)]).1 rfl rfl,
   (c10_null_fallback_carried exFoo "u" [] [("city", none), ("state", none)]).2 rfl rfl⟩

/-! ## C3 — numeric overflow escapes `to_listing_row`

The saturating model refines the exact-rational one: wherever it produces
a finite float, the idealized `float_of_digits` produces the same rational
(`float_of_digitsF_finite` below), so the two models agree on every
overflow-free input — in particular on every input the other claims
evaluate.  Where they part ways is past the IEEE overflow bound, and there
the source raises. -/

/-- On finite results the saturating literal parser agrees with the
exact-rational one (the string-level wrappers differ only in the final
sign and saturation step). -/
theorem float_of_digitsF_finite {l : List Char} {q : ℚ}
    (h : float_of_digitsF l = .ok (.finite q)) : float_of_digits l = .ok q := by
  simp only [float_of_digitsF] at h
  simp only [float_of_digits]
  cases hrest : l.dropWhile (fun c => c != '.') with
  | nil =>
    simp only [hrest] at h ⊢
    by_cases hvalid : l.takeWhile (fun c => c != '.') ≠ [] ∧
        (l.takeWhile (fun c => c != '.')).all Char.isDigit
    · rw [if_pos hvalid] at h
      rw [if_pos hvalid]
      simp only [Except.ok.injEq] at h
      unfold floatSat at h
      split at h
      · exact absurd h (by simp)
      · simp only [PyFloat.finite.injEq] at h
        rw [← h]
        norm_num
    · rw [if_neg hvalid] at h
      simp at h
  | cons c frac =>
    simp only [hrest] at h ⊢
    by_cases hvalid : (l.takeWhile (fun c => c != '.') ≠ [] ∨ frac ≠ []) ∧
        (l.takeWhile (fun c => c != '.')).all Char.isDigit ∧ frac.all Char.isDigit
    · rw [if_pos hvalid] at h
      rw [if_pos hvalid]
      simp only [Except.ok.injEq] at h
      unfold floatSat at h
      split at h
      · exact absurd h (by simp)
      · simp only [PyFloat.finite.injEq] at h
        rw [← h]
    · rw [if_neg hvalid] at h
      simp at h

set_option maxRecDepth 32768 in
/-- C3 (code bug): the claim — and the source's own intent, witnessed by
`parse_float`'s "Safely parse" contract and its `ValueError` handler — is
that `to_listing_row` never raises.  But on a numeric string past the
double overflow bound, `float(...)` returns `inf` (a value: no exception
to catch), and `int(inf)` inside `parse_int` raises `OverflowError`, which
nothing between there and the caller handles, so the row is aborted. -/
theorem c3_overflow_raises :
    parse_floatF (.str ⟨List.replicate 310 '9'⟩) = some PyFloat.inf ∧
    parse_intF (.str ⟨List.replicate 310 '9'⟩) = Except.error "OverflowError" ∧
    to_listing_rowF exOverflow "http://example.com/1" [] [] =
      Except.error "OverflowError" :=
  ⟨rfl, rfl, rfl⟩

end RScraper
